import Mathlib

/-
Verification development for the Report_App ETL pipeline (src/app.py).

The pipeline is shallowly embedded: each pandas column operation of app.py
becomes a Lean function on explicit record lists.  Spreadsheet cells that may
be missing (NaN / <NA> / NaT) are modelled as Option values.  The embedding
follows the source line by line:

  line 30-31  category extraction from the Material text (regex [digits])
  line 32     test-record exclusion on the Name column
  line 35     drop_duplicates on the (PC, SMC) mapping pairs
  line 37     left merge on the Purchasing Category code
  line 38     date parsing with format %d/%m/%Y, errors coerced to null
  line 41-49  organization normalization against the two-entry allow-list
  line 51-54  month number / month name / ordered categorical
  line 65-67  organization x month multiselect filtering
  line 76-77  groupby (Organization1, month_name) size counts
  line 92-95  GPN subset and cluster-by-month pivot with column reindex
  line 108-109 organization-by-month pivot with column reindex
  line 135    month-vs-organization pivot reindexed to the full month order
  line 141    month-vs-groups pivot on the GPN subset

Modelling notes, each tied to the concrete pandas semantics of the source:
  - str.extract uses re.search: the first position where "[" is followed by a
    nonempty maximal digit run and then "]" wins.
  - merge keys: pandas treats null keys as joinable values, so Option
    equality (none matches none) is used on the Purchasing Category code.
  - pivot_table drops records whose index key is null, and groupby drops
    records whose grouping key is null; both are modelled explicitly.
  - the month_name column is an ordered categorical over the twelve month
    names; values outside that domain (the empty string produced for a null
    month) become null, modelled by toMonthCat returning none.
  - groupby over the categorical month_name column uses observed=False, so
    every one of the twelve categories appears for each observed
    organization, zero-filled.
  - pandas sorts group and pivot index keys; the claims checked here do not
    depend on label order, so distinct keys are kept in first-appearance
    order (dedupFirst) rather than sorted.
  - the astype(float).astype("Int64") cast of the extracted digit run goes
    through IEEE-754 float64: the digit value is rounded to the nearest
    integer representable with 53 significant bits, ties to even
    (floatRound); values below 2^53 are exact.  Digit runs so large that
    the float64 overflows to infinity or the Int64 cast leaves the signed
    64-bit range make the pandas cast raise instead of producing a code;
    floatRound models the in-range regime.
-/

/-- Calendar date as produced by pd.to_datetime with format %d/%m/%Y. -/
structure CalDate where
  day : Nat
  month : Nat
  year : Nat
deriving DecidableEq, Repr

/-- Raw event row of the sourcing-events file (first sheet of file A):
the four columns the pipeline reads.  Missing cells are none. -/
structure EventRow where
  material : Option String
  name : Option String
  organization : Option String
  dateRaw : Option String
deriving DecidableEq, Repr

/-- Row of the "New Structure" sheet of file B, restricted to the two
columns the pipeline keeps (line 35). -/
structure ClusterRow where
  pc : Option Nat
  smc : Option String
deriving DecidableEq, Repr

/-- Enriched row of df_merged after lines 37-54. -/
structure MergedRow where
  material : Option String
  name : Option String
  organization : Option String
  dateRaw : Option String
  pc : Option Nat
  groups : Option String
  date : Option CalDate
  organization1 : String
  month : Option Nat
  monthNameCat : Option String
deriving DecidableEq, Repr

/-- Greedy digit run directly after an opening bracket, accepted only when a
closing bracket follows it: the body of one regex match of \[(\d+)\]. -/
def grabRun (cs : List Char) : Option (List Char) :=
  if (cs.takeWhile Char.isDigit).isEmpty then none
  else
    match cs.dropWhile Char.isDigit with
    | ']' :: _ => some (cs.takeWhile Char.isDigit)
    | _ => none

/-- re.search scanning of \[(\d+)\] as performed by str.extract (line 30):
the digit run of the first match, none when no position matches. -/
def scanPC : List Char → Option (List Char)
  | [] => none
  | c :: rest =>
    if c = '[' then
      match grabRun rest with
      | some ds => some ds
      | none => scanPC rest
    else scanPC rest

/-- Modelled from the spec: every run of digits enclosed in square brackets,
in textual order; the specification speaks of "the first run of digits
enclosed in square brackets", i.e. the head of this list. -/
def bracketRuns : List Char → List (List Char)
  | [] => []
  | c :: rest =>
    if c = '[' then
      match grabRun rest with
      | some ds => ds :: bracketRuns rest
      | none => bracketRuns rest
    else bracketRuns rest

/-- Numeric value of a digit run, the integer the astype casts produce. -/
def digitsToNat (ds : List Char) : Nat :=
  ds.foldl (fun a c => 10 * a + (c.toNat - 48)) 0

/-- Bounded search for the exponent of the leading binary digit: starting
from p = 2^acc, double while the next power still fits below n.  With enough
fuel the result e satisfies 2^e <= n < 2^(e+1). -/
def log2Search (n : Nat) : Nat → Nat → Nat → Nat
  | 0, acc, _ => acc
  | fuel + 1, acc, p => if p * 2 ≤ n then log2Search n fuel (acc + 1) (p * 2) else acc

/-- Largest e with 2^e <= n, exact for 1 <= n < 2^1100 (beyond every finite
float64). -/
def log2Below (n : Nat) : Nat :=
  log2Search n 1100 0 1

/-- Round n to the nearest multiple of step, ties to the even multiple. -/
def roundStep (step n : Nat) : Nat :=
  if 2 * (n % step) < step then (n / step) * step
  else if 2 * (n % step) > step then (n / step + 1) * step
  else if (n / step) % 2 = 0 then (n / step) * step else (n / step + 1) * step

/-- Value float64 assigns to a nonnegative integer in the finite regime:
round to the nearest multiple of 2^(e-52), where e is the exponent of the
leading binary digit, ties to the even multiple; integers below 2^53 are
representable exactly.  This is the rounding the astype(float) cast of
line 31 performs before astype("Int64") reads the integer back. -/
def floatRound (n : Nat) : Nat :=
  if n < 2 ^ 53 then n else roundStep (2 ^ (log2Below n - 52)) n

/-- Purchasing Category code of one Material cell (lines 30-31): digit run
of the first bracketed match, read as an integer through the float64 cast;
null cell or no match give null. -/
def pcExtract (mat : Option String) : Option Nat :=
  match mat with
  | none => none
  | some s => (scanPC s.data).map (fun ds => floatRound (digitsToNat ds))

/-- ASCII lowering of one character, as str.lower acts on the letters
relevant to the "test" check. -/
def lowerChar (c : Char) : Char :=
  if 'A' ≤ c ∧ c ≤ 'Z' then Char.ofNat (c.toNat + 32) else c

/-- Does the haystack start with the needle. -/
def leadsWith : List Char → List Char → Bool
  | [], _ => true
  | _ :: _, [] => false
  | a :: as, b :: bs => a = b && leadsWith as bs

/-- Does the haystack contain the needle as a contiguous run. -/
def hasSub (needle : List Char) : List Char → Bool
  | [] => leadsWith needle []
  | c :: rest => leadsWith needle (c :: rest) || hasSub needle rest

/-- Test marker of line 32: str.lower().str.contains("test", na=False);
a null Name cell yields false (the row is kept). -/
def nameHasTest (n : Option String) : Bool :=
  match n with
  | none => false
  | some s => hasSub "test".data (s.data.map lowerChar)

/-- Event rows surviving the test-record exclusion (line 32). -/
def testFiltered (events : List EventRow) : List EventRow :=
  events.filter (fun e => !nameHasTest e.name)

/-- drop_duplicates (line 35): keep the first occurrence of each row. -/
def dedupFirstAux {α : Type} [DecidableEq α] (seen : List α) : List α → List α
  | [] => []
  | x :: xs =>
    if x ∈ seen then dedupFirstAux seen xs
    else x :: dedupFirstAux (x :: seen) xs

/-- Duplicate removal keeping first occurrences, as drop_duplicates does. -/
def dedupFirst {α : Type} [DecidableEq α] (l : List α) : List α :=
  dedupFirstAux [] l

/-- Deduplicated cluster mapping (line 35). -/
def dedupPairs (clusters : List ClusterRow) : List ClusterRow :=
  dedupFirst clusters

/-- True when a year is a leap year of the Gregorian calendar. -/
def isLeap (y : Nat) : Bool :=
  (y % 4 = 0 && y % 100 ≠ 0) || y % 400 = 0

/-- Number of days of a month, as the datetime validation uses. -/
def daysInMonth (m y : Nat) : Nat :=
  if m = 2 then (if isLeap y then 29 else 28)
  else if m = 4 ∨ m = 6 ∨ m = 9 ∨ m = 11 then 30
  else 31

/-- Split a character list at every slash. -/
def splitSlash : List Char → List (List Char)
  | [] => [[]]
  | c :: cs =>
    if c = '/' then [] :: splitSlash cs
    else
      match splitSlash cs with
      | p :: ps => (c :: p) :: ps
      | [] => [[c]]

/-- pd.to_datetime with format %d/%m/%Y and errors="coerce" (line 38):
three all-digit slash-separated fields making a valid calendar date parse;
everything else coerces to null. -/
def parseDMY (s : String) : Option CalDate :=
  match splitSlash s.data with
  | [ds, ms, ys] =>
    if (!ds.isEmpty && ds.all Char.isDigit) &&
       (!ms.isEmpty && ms.all Char.isDigit) &&
       (!ys.isEmpty && ys.all Char.isDigit) then
      if 1 ≤ digitsToNat ms ∧ digitsToNat ms ≤ 12 ∧ 1 ≤ digitsToNat ds ∧
         digitsToNat ds ≤ daysInMonth (digitsToNat ms) (digitsToNat ys) then
        some ⟨digitsToNat ds, digitsToNat ms, digitsToNat ys⟩
      else none
    else none
  | _ => none

/-- Two-entry allow-list of lines 41-44. -/
def keepValues : List String :=
  ["PHOENIX CONTACT E-Mobility GmbH",
   "Phoenix Contact GmbH & Co. KG - Werkzeugbau"]

/-- Fallback organization group of line 48. -/
def fallbackOrg : String := "Phoenix Contact - GPN"

/-- np.where of lines 45-49: the verbatim name when allow-listed, the
fallback constant otherwise (a null name is not allow-listed). -/
def normalizeOrg (o : Option String) : String :=
  match o with
  | some s => if s ∈ keepValues then s else fallbackOrg
  | none => fallbackOrg

/-- calendar.month_name indexing: English month name of a month number,
empty for anything outside 1..12 (calendar.month_name[0] is empty). -/
def monthName (m : Nat) : String :=
  match m with
  | 1 => "January"
  | 2 => "February"
  | 3 => "March"
  | 4 => "April"
  | 5 => "May"
  | 6 => "June"
  | 7 => "July"
  | 8 => "August"
  | 9 => "September"
  | 10 => "October"
  | 11 => "November"
  | 12 => "December"
  | _ => ""

/-- month_order of line 53: list(calendar.month_name[1:]). -/
def monthOrder : List String :=
  ["January", "February", "March", "April", "May", "June", "July",
   "August", "September", "October", "November", "December"]

/-- Line 52: month name of the month number, empty string for null. -/
def monthNameStrOf (m : Option Nat) : String :=
  match m with
  | some x => monthName x
  | none => ""

/-- Line 54: pd.Categorical over month_order; a value outside the domain
(the empty string of a null month) becomes null. -/
def toMonthCat (s : String) : Option String :=
  if s ∈ monthOrder then some s else none

/-- Enrichment of one joined row: date parse (line 38), organization
normalization (lines 45-49) and month derivation (lines 51-54). -/
def enrich (e : EventRow) (g : Option String) : MergedRow :=
  let d := e.dateRaw.bind parseDMY
  let m := d.map CalDate.month
  { material := e.material
    name := e.name
    organization := e.organization
    dateRaw := e.dateRaw
    pc := pcExtract e.material
    groups := g
    date := d
    organization1 := normalizeOrg e.organization
    month := m
    monthNameCat := toMonthCat (monthNameStrOf m) }

/-- Left-merge contribution of one event row (line 37): one enriched row per
matching mapping row, or a single row with null cluster when nothing
matches.  Null codes are joinable values, as pandas merge treats them. -/
def joinOne (cs : List ClusterRow) (e : EventRow) : List MergedRow :=
  let ms := cs.filter (fun c => c.pc == pcExtract e.material)
  if ms.isEmpty then [enrich e none]
  else ms.map (fun c => enrich e c.smc)

/-- df_merged of lines 30-54: test exclusion, dedup, left merge, enrich. -/
def transform (events : List EventRow) (clusters : List ClusterRow) : List MergedRow :=
  (testFiltered events).flatMap (joinOne (dedupPairs clusters))

/-- filtered_df of lines 65-67: organization and month multiselects; a null
month name is never a member of the month selection. -/
def filterRows (rows : List MergedRow) (orgs months : List String) : List MergedRow :=
  rows.filter (fun r =>
    decide (r.organization1 ∈ orgs) &&
      (match r.monthNameCat with
       | some m => decide (m ∈ months)
       | none => false))

/-- Distinct Organization1 group keys in appearance order. -/
def orgKeys (rows : List MergedRow) : List String :=
  dedupFirst (rows.map (fun r => r.organization1))

/-- Month names observed in the rows, in categorical (calendar) order: the
index pivot_table builds over the categorical month_name column. -/
def monthKeys (rows : List MergedRow) : List String :=
  monthOrder.filter (fun m => rows.any (fun r => r.monthNameCat == some m))

/-- Distinct non-null cluster labels; pivot_table drops the records whose
index key is null, so only the some-valued Groups cells produce labels. -/
def groupKeys (rows : List MergedRow) : List String :=
  dedupFirst (rows.filterMap (fun r => r.groups))

/-- Count of rows of one (Organization1, month name) cell. -/
def countOrgMonth (rows : List MergedRow) (o m : String) : Nat :=
  (rows.filter (fun r => r.organization1 == o && r.monthNameCat == some m)).length

/-- Count of rows of one (Groups, month name) cell. -/
def countGroupMonth (rows : List MergedRow) (g m : String) : Nat :=
  (rows.filter (fun r => r.groups == some g && r.monthNameCat == some m)).length

/-- Count of rows of one (verbatim Organization, month name) cell. -/
def countOrgRawMonth (rows : List MergedRow) (o m : String) : Nat :=
  (rows.filter (fun r => r.organization == some o && r.monthNameCat == some m)).length

/-- monthly_counts of line 76: groupby (Organization1, month_name) size.
The month_name grouper is categorical with observed=False, so every
observed organization is paired with all twelve months, zero-filled;
records whose month_name is null are dropped by groupby. -/
def monthlyCounts (rows : List MergedRow) : List ((String × String) × Nat) :=
  (orgKeys rows).flatMap (fun o =>
    monthOrder.map (fun m => ((o, m), countOrgMonth rows o m)))

/-- Column reindex of lines 95 and 109: reindex(columns=month_order,
fill_value=0) on one pivot row, absent months filled with zero. -/
def reindexCols (cells : List (String × Nat)) : List (String × Nat) :=
  monthOrder.map (fun m =>
    (m, match cells.find? (fun q => q.1 == m) with
        | some q => q.2
        | none => 0))

/-- pivot_cluster before the reindex (line 94): one row per observed
non-null cluster label, columns the observed months. -/
def pivotClusterRaw (rows : List MergedRow) : List (String × List (String × Nat)) :=
  (groupKeys rows).map (fun g =>
    (g, (monthKeys rows).map (fun m => (m, countGroupMonth rows g m))))

/-- pivot_cluster of lines 94-95, columns reindexed to the full month order. -/
def pivotCluster (rows : List MergedRow) : List (String × List (String × Nat)) :=
  (pivotClusterRaw rows).map (fun p => (p.1, reindexCols p.2))

/-- Distinct non-null verbatim organization labels of the GPN pivot. -/
def orgRawKeys (rows : List MergedRow) : List String :=
  dedupFirst (rows.filterMap (fun r => r.organization))

/-- pivot_org of lines 108-109: verbatim organization by month, columns
reindexed to the full month order. -/
def pivotOrg (rows : List MergedRow) : List (String × List (String × Nat)) :=
  (orgRawKeys rows).map (fun o =>
    (o, reindexCols ((monthKeys rows).map (fun m => (m, countOrgRawMonth rows o m)))))

/-- Row reindex of lines 135 and 141: reindex(month_order) with no fill
value, so a month absent from the pivot index keeps missing cells. -/
def reindexRows (t : List (String × List (String × Nat))) : List (String × Option (List (String × Nat))) :=
  monthOrder.map (fun m => (m, (t.find? (fun p => p.1 == m)).map (fun p => p.2)))

/-- pivot_table1 before the reindex (line 135): one row per observed month,
one column per observed organization group. -/
def pivotTable1Raw (rows : List MergedRow) : List (String × List (String × Nat)) :=
  (monthKeys rows).map (fun m =>
    (m, (orgKeys rows).map (fun o => (o, countOrgMonth rows o m))))

/-- pivot_table1 of line 135, rows reindexed to the full month order. -/
def pivotTable1 (rows : List MergedRow) : List (String × Option (List (String × Nat))) :=
  reindexRows (pivotTable1Raw rows)

/-- pivot_table2 before the reindex (line 141): month rows, cluster columns. -/
def pivotTable2Raw (rows : List MergedRow) : List (String × List (String × Nat)) :=
  (monthKeys rows).map (fun m =>
    (m, (groupKeys rows).map (fun g => (g, countGroupMonth rows g m))))

/-- pivot_table2 of line 141, rows reindexed to the full month order. -/
def pivotTable2 (rows : List MergedRow) : List (String × Option (List (String × Nat))) :=
  reindexRows (pivotTable2Raw rows)

/-- df_gpn of line 92: the fallback-organization subset. -/
def dfGpn (rows : List MergedRow) : List MergedRow :=
  rows.filter (fun r => r.organization1 == fallbackOrg)

/-- Guard of lines 93 and 140: the GPN charts and the second pivot table
render only when df_gpn is nonempty. -/
def showGpn (rows : List MergedRow) : Bool :=
  !(dfGpn rows).isEmpty

/-
Helper lemmas.  These are general facts about the embedded operations,
shared by the claim theorems below.
-/

theorem mem_dedupFirstAux {α : Type} [DecidableEq α] (l : List α) (seen : List α) (a : α) :
    a ∈ dedupFirstAux seen l ↔ a ∈ l ∧ a ∉ seen := by
  induction l generalizing seen with
  | nil => simp [dedupFirstAux]
  | cons x xs ih =>
    by_cases hx : x ∈ seen
    · rw [dedupFirstAux, if_pos hx, ih]
      simp only [List.mem_cons]
      constructor
      · exact fun h => ⟨Or.inr h.1, h.2⟩
      · rintro ⟨h1 | h1, h2⟩
        · exact absurd (h1 ▸ hx) h2
        · exact ⟨h1, h2⟩
    · rw [dedupFirstAux, if_neg hx]
      simp only [List.mem_cons, ih, not_or]
      constructor
      · rintro (rfl | ⟨h1, hne, h2⟩)
        · exact ⟨Or.inl rfl, hx⟩
        · exact ⟨Or.inr h1, h2⟩
      · rintro ⟨rfl | h1, h2⟩
        · exact Or.inl rfl
        · rcases eq_or_ne a x with rfl | hne
          · exact Or.inl rfl
          · exact Or.inr ⟨h1, hne, h2⟩

theorem mem_dedupFirst {α : Type} [DecidableEq α] (l : List α) (a : α) :
    a ∈ dedupFirst l ↔ a ∈ l := by
  rw [dedupFirst, mem_dedupFirstAux]
  simp

theorem nodup_dedupFirstAux {α : Type} [DecidableEq α] (l : List α) (seen : List α) :
    (dedupFirstAux seen l).Nodup := by
  induction l generalizing seen with
  | nil => simp [dedupFirstAux]
  | cons x xs ih =>
    by_cases hx : x ∈ seen
    · rw [dedupFirstAux, if_pos hx]
      exact ih seen
    · rw [dedupFirstAux, if_neg hx]
      refine List.Nodup.cons ?_ (ih (x :: seen))
      intro hmem
      rw [mem_dedupFirstAux] at hmem
      exact hmem.2 (List.mem_cons_self x seen)

theorem nodup_dedupFirst {α : Type} [DecidableEq α] (l : List α) :
    (dedupFirst l).Nodup :=
  nodup_dedupFirstAux l []

theorem leadsWith_iff (n h : List Char) :
    leadsWith n h = true ↔ ∃ t, h = n ++ t := by
  induction n generalizing h with
  | nil =>
    simp [leadsWith]
  | cons a as ih =>
    cases h with
    | nil => simp [leadsWith]
    | cons b bs =>
      simp only [leadsWith, Bool.and_eq_true, decide_eq_true_eq, ih, List.cons_append]
      constructor
      · rintro ⟨rfl, t, rfl⟩
        exact ⟨t, rfl⟩
      · rintro ⟨t, heq⟩
        injection heq with h1 h2
        exact ⟨h1.symm, t, h2⟩

theorem hasSub_iff (n h : List Char) :
    hasSub n h = true ↔ ∃ pre post, h = pre ++ n ++ post := by
  induction h with
  | nil =>
    rw [hasSub, leadsWith_iff]
    constructor
    · rintro ⟨t, ht⟩
      exact ⟨[], t, by simpa using ht⟩
    · rintro ⟨pre, post, hp⟩
      have h0 : pre ++ n ++ post = [] := hp.symm
      rw [List.append_eq_nil] at h0
      obtain ⟨h1, h2⟩ := h0
      rw [List.append_eq_nil] at h1
      exact ⟨[], by simp [h1.2]⟩
  | cons c rest ih =>
    rw [hasSub, Bool.or_eq_true, leadsWith_iff, ih]
    constructor
    · rintro (⟨t, ht⟩ | ⟨pre, post, hp⟩)
      · exact ⟨[], t, by simpa using ht⟩
      · exact ⟨c :: pre, post, by simp [hp]⟩
    · rintro ⟨pre, post, hp⟩
      cases pre with
      | nil =>
        left
        exact ⟨post, by simpa using hp⟩
      | cons p ps =>
        right
        rw [List.cons_append, List.cons_append] at hp
        injection hp with h1 h2
        exact ⟨ps, post, h2⟩

theorem grabRun_some (cs ds : List Char) (h : grabRun cs = some ds) :
    ds ≠ [] ∧ ds.all Char.isDigit = true ∧ ∃ t, cs = ds ++ ']' :: t := by
  unfold grabRun at h
  split at h
  · exact absurd h (by simp)
  · rename_i hemp
    split at h
    · rename_i x t heq
      injection h with h1
      subst h1
      refine ⟨?_, ?_, ?_⟩
      · intro hnil
        rw [hnil] at hemp
        simp at hemp
      · rw [List.all_eq_true]
        intro x hx
        exact List.mem_takeWhile_imp hx
      · refine ⟨t, ?_⟩
        conv_lhs => rw [← List.takeWhile_append_dropWhile Char.isDigit cs]
        rw [heq]
    · exact absurd h (by simp)

theorem scanPC_eq_head (cs : List Char) : scanPC cs = (bracketRuns cs).head? := by
  induction cs with
  | nil => rfl
  | cons c rest ih =>
    rw [scanPC, bracketRuns]
    by_cases hc : c = '['
    · rw [if_pos hc, if_pos hc]
      cases h : grabRun rest with
      | some ds => rfl
      | none => exact ih
    · rw [if_neg hc, if_neg hc]
      exact ih

theorem bracketRuns_sound (cs : List Char) (ds : List Char) (hds : ds ∈ bracketRuns cs) :
    ds ≠ [] ∧ ds.all Char.isDigit = true ∧
      ∃ pre post, cs = pre ++ '[' :: (ds ++ ']' :: post) := by
  induction cs with
  | nil => simp [bracketRuns] at hds
  | cons c rest ih =>
    rw [bracketRuns] at hds
    by_cases hc : c = '['
    · subst hc
      rw [if_pos rfl] at hds
      cases h : grabRun rest with
      | none =>
        simp only [h] at hds
        obtain ⟨h1, h2, pre, post, h3⟩ := ih hds
        exact ⟨h1, h2, '[' :: pre, post, by simp [h3]⟩
      | some ds0 =>
        simp only [h] at hds
        rcases List.mem_cons.mp hds with rfl | hmem
        · obtain ⟨h1, h2, t, h3⟩ := grabRun_some rest ds h
          exact ⟨h1, h2, [], t, by simp [h3]⟩
        · obtain ⟨h1, h2, pre, post, h3⟩ := ih hmem
          exact ⟨h1, h2, '[' :: pre, post, by simp [h3]⟩
    · rw [if_neg hc] at hds
      obtain ⟨h1, h2, pre, post, h3⟩ := ih hds
      exact ⟨h1, h2, c :: pre, post, by simp [h3]⟩

/-- Modelled from the spec: the bracketed digit runs of one event row, in
textual order; empty when the Material cell is null. -/
def specRunsOf (r : EventRow) : List (List Char) :=
  match r.material with
  | some s => bracketRuns s.data
  | none => []

theorem floatRound_of_lt (n : Nat) (h : n < 2 ^ 53) : floatRound n = n := by
  unfold floatRound
  rw [if_pos h]

theorem log2Search_spec (n : Nat) :
    ∀ fuel acc, 2 ^ acc ≤ n → n < 2 ^ (acc + fuel) →
      2 ^ log2Search n fuel acc (2 ^ acc) ≤ n ∧
      n < 2 ^ (log2Search n fuel acc (2 ^ acc) + 1) := by
  intro fuel
  induction fuel with
  | zero =>
    intro acc hle hlt
    rw [Nat.add_zero] at hlt
    omega
  | succ fuel ih =>
    intro acc hle hlt
    rw [log2Search]
    by_cases hp : 2 ^ acc * 2 ≤ n
    · rw [if_pos hp]
      have hpow : 2 ^ acc * 2 = 2 ^ (acc + 1) := by rw [Nat.pow_succ]
      rw [hpow]
      apply ih (acc + 1)
      · rw [← hpow]
        exact hp
      · have harr : acc + 1 + fuel = acc + (fuel + 1) := by omega
        rw [harr]
        exact hlt
    · rw [if_neg hp]
      have hpow : 2 ^ (acc + 1) = 2 ^ acc * 2 := by rw [Nat.pow_succ]
      exact ⟨hle, by omega⟩

theorem log2Below_spec (n : Nat) (h1 : 1 ≤ n) (h2 : n < 2 ^ 1100) :
    2 ^ log2Below n ≤ n ∧ n < 2 ^ (log2Below n + 1) := by
  have h := log2Search_spec n 1100 0 (by simpa using h1) (by simpa using h2)
  simpa [log2Below] using h

theorem roundStep_spec (step n : Nat) (hstep : 0 < step) :
    roundStep step n % step = 0 ∧
    2 * (n - roundStep step n) ≤ step ∧
    2 * (roundStep step n - n) ≤ step ∧
    (2 * (n % step) = step → roundStep step n / step % 2 = 0) := by
  have hdm := Nat.div_add_mod n step
  have hmod := Nat.mod_lt n hstep
  unfold roundStep
  set q := n / step with hq
  set r := n % step with hr
  have e2 : (q + 1) * step = q * step + step := by ring
  have e3 : step * q = q * step := by ring
  have e4 : q * step / step = q := Nat.mul_div_cancel q hstep
  have e5 : (q + 1) * step / step = q + 1 := Nat.mul_div_cancel (q + 1) hstep
  by_cases hlt : 2 * r < step
  · rw [if_pos hlt]
    exact ⟨Nat.mul_mod_left _ _, by omega, by omega, by omega⟩
  · rw [if_neg hlt]
    by_cases hgt : 2 * r > step
    · rw [if_pos hgt]
      exact ⟨Nat.mul_mod_left _ _, by omega, by omega, by omega⟩
    · rw [if_neg hgt]
      by_cases hev : q % 2 = 0
      · rw [if_pos hev]
        exact ⟨Nat.mul_mod_left _ _, by omega, by omega, by omega⟩
      · rw [if_neg hev]
        exact ⟨Nat.mul_mod_left _ _, by omega, by omega, by omega⟩

theorem floatRound_spec (n : Nat) (h1 : 2 ^ 53 ≤ n) :
    floatRound n % 2 ^ (log2Below n - 52) = 0 ∧
    2 * (n - floatRound n) ≤ 2 ^ (log2Below n - 52) ∧
    2 * (floatRound n - n) ≤ 2 ^ (log2Below n - 52) := by
  have hnlt : ¬ n < 2 ^ 53 := by omega
  have hfr : floatRound n = roundStep (2 ^ (log2Below n - 52)) n := by
    unfold floatRound
    rw [if_neg hnlt]
  rw [hfr]
  have h := roundStep_spec (2 ^ (log2Below n - 52)) n (Nat.pos_pow_of_pos _ (by omega))
  exact ⟨h.1, h.2.1, h.2.2.1⟩

/-- C1 (amended): for every event row, the derived purchasing-category code
is the float64 value of the first run of digits enclosed in square brackets
of the material text, i.e. the digit value rounded to the nearest integer
with 53 significant bits, ties to even, which coincides with the exact
integer whenever the value is below 2^53; the code is null when the
material has no bracketed digit run (in particular when the material cell
itself is null); every such run is a nonempty all-digit sequence actually
enclosed in square brackets in the material text. -/
theorem C1_category_extraction (r : EventRow) :
    pcExtract r.material =
      ((specRunsOf r).head?).map (fun ds => floatRound (digitsToNat ds)) ∧
    (∀ ds, (specRunsOf r).head? = some ds → digitsToNat ds < 2 ^ 53 →
      pcExtract r.material = some (digitsToNat ds)) ∧
    ∀ ds ∈ specRunsOf r, ds ≠ [] ∧ ds.all Char.isDigit = true ∧
      ∃ s pre post, r.material = some s ∧
        s.data = pre ++ '[' :: (ds ++ ']' :: post) := by
  have hmain : pcExtract r.material =
      ((specRunsOf r).head?).map (fun ds => floatRound (digitsToNat ds)) := by
    cases hm : r.material with
    | none => simp [pcExtract, specRunsOf, hm]
    | some s =>
      simp only [pcExtract, specRunsOf, hm, scanPC_eq_head]
  refine ⟨hmain, ?_, ?_⟩
  · intro ds hds hlt
    rw [hmain, hds]
    simp [floatRound_of_lt _ hlt]
  · intro ds hds
    cases hm : r.material with
    | none => simp [specRunsOf, hm] at hds
    | some s =>
      simp only [specRunsOf, hm] at hds
      obtain ⟨h1, h2, pre, post, h3⟩ := bracketRuns_sound s.data ds hds
      exact ⟨h1, h2, s, pre, post, rfl, h3⟩

/-- Concrete event row whose bracketed digit run exceeds 2^53 =
9007199254740992: the float64 round trip of the program rounds it down to
the even neighbour. -/
def ev1big : EventRow := ⟨some "[9007199254740993]", none, none, none⟩

/-- C1 counterexample: at material "[9007199254740993]" the derived code is
9007199254740992, not the bracketed digit run interpreted as the exact
integer 9007199254740993, refuting the original claim that the code always
equals the first bracketed digit run as an integer. -/
theorem C1_counterexample :
    pcExtract ev1big.material = some 9007199254740992 ∧
    ((specRunsOf ev1big).head?).map digitsToNat = some 9007199254740993 ∧
    ¬ pcExtract ev1big.material = ((specRunsOf ev1big).head?).map digitsToNat :=
  ⟨by decide, by decide, by decide⟩

/-- Concrete event row exercising the category extraction. -/
def ev1 : EventRow := ⟨some "Widget [12] spare [7]", none, none, none⟩

theorem C1_witness :
    pcExtract ev1.material = some (digitsToNat ['1', '2']) ∧
    pcExtract ev1.material = some 12 ∧
    pcExtract (some "no code here") = none :=
  ⟨(C1_category_extraction ev1).2.1 ['1', '2'] (by decide) (by decide),
   by decide, by decide⟩

theorem filter_pc_length_le_one (cs : List ClusterRow) (k : Option Nat)
    (h : (cs.map (fun c => c.pc)).Nodup) :
    (cs.filter (fun c => c.pc == k)).length ≤ 1 := by
  induction cs with
  | nil => simp
  | cons x xs ih =>
    rw [List.map_cons, List.nodup_cons] at h
    by_cases hx : (x.pc == k) = true
    · rw [List.filter_cons, if_pos hx]
      have hnil : xs.filter (fun c => c.pc == k) = [] := by
        rw [List.filter_eq_nil_iff]
        intro c hc hck
        apply h.1
        have h1 : c.pc = k := by simpa using hck
        have h2 : x.pc = k := by simpa using hx
        rw [List.mem_map]
        exact ⟨c, hc, by rw [h1, h2]⟩
      simp [hnil]
    · rw [List.filter_cons, if_neg hx]
      exact ih h.2

theorem joinOne_length (cs : List ClusterRow) (e : EventRow)
    (h : (cs.map (fun c => c.pc)).Nodup) :
    (joinOne cs e).length = 1 := by
  rw [joinOne]
  by_cases he : (cs.filter (fun c => c.pc == pcExtract e.material)).isEmpty
  · simp [he]
  · rw [if_neg he, List.length_map]
    have hle := filter_pc_length_le_one cs (pcExtract e.material) h
    have hne : (cs.filter (fun c => c.pc == pcExtract e.material)) ≠ [] := by
      simpa [List.isEmpty_iff] using he
    have hpos : 0 < (cs.filter (fun c => c.pc == pcExtract e.material)).length :=
      List.length_pos.mpr hne
    omega

theorem transform_length (events : List EventRow) (clusters : List ClusterRow)
    (h : ((dedupPairs clusters).map (fun c => c.pc)).Nodup) :
    (transform events clusters).length = (testFiltered events).length := by
  rw [transform]
  generalize testFiltered events = L
  induction L with
  | nil => rfl
  | cons e es ih =>
    rw [List.flatMap_cons, List.length_append, ih, joinOne_length _ _ h,
      List.length_cons]
    omega

theorem transform_shape (events : List EventRow) (clusters : List ClusterRow)
    (r : MergedRow) (hr : r ∈ transform events clusters) :
    ∃ e g, e ∈ testFiltered events ∧ r = enrich e g := by
  rw [transform] at hr
  obtain ⟨e, he, hre⟩ := List.mem_flatMap.mp hr
  rw [joinOne] at hre
  by_cases hemp : ((dedupPairs clusters).filter (fun c => c.pc == pcExtract e.material)).isEmpty
  · rw [if_pos hemp] at hre
    rcases List.mem_singleton.mp hre with rfl
    exact ⟨e, none, he, rfl⟩
  · rw [if_neg hemp] at hre
    obtain ⟨c, _, hce⟩ := List.mem_map.mp hre
    exact ⟨e, c.smc, he, hce.symm⟩

theorem transform_unmatched (events : List EventRow) (clusters : List ClusterRow)
    (r : MergedRow) (hr : r ∈ transform events clusters)
    (hnm : ∀ c ∈ dedupPairs clusters, c.pc ≠ r.pc) : r.groups = none := by
  rw [transform] at hr
  obtain ⟨e, he, hre⟩ := List.mem_flatMap.mp hr
  rw [joinOne] at hre
  by_cases hemp : ((dedupPairs clusters).filter (fun c => c.pc == pcExtract e.material)).isEmpty
  · rw [if_pos hemp] at hre
    rcases List.mem_singleton.mp hre with rfl
    simp [enrich]
  · rw [if_neg hemp] at hre
    obtain ⟨c, hc, hce⟩ := List.mem_map.mp hre
    have hcf := List.mem_filter.mp hc
    have h1 : c.pc = pcExtract e.material := by simpa using hcf.2
    have h2 : r.pc = pcExtract e.material := by rw [← hce]; simp [enrich]
    exact absurd (h1.trans h2.symm) (hnm c hcf.1)

/-- C2: when the deduplicated cluster mapping has pairwise-distinct
purchasing-category codes, the left merge preserves the row count of the
test-filtered event set, and every merged row whose code matches no mapping
row carries a null cluster value. -/
theorem C2_left_join_row_count (events : List EventRow) (clusters : List ClusterRow)
    (h : ((dedupPairs clusters).map (fun c => c.pc)).Nodup) :
    (transform events clusters).length = (testFiltered events).length ∧
    ∀ r ∈ transform events clusters,
      (∀ c ∈ dedupPairs clusters, c.pc ≠ r.pc) → r.groups = none :=
  ⟨transform_length events clusters h,
   fun r hr hnm => transform_unmatched events clusters r hr hnm⟩

/-- Concrete event rows exercising the join: one matched row, one row with
an unmatched code, one row with no code at all. -/
def ev2 : List EventRow :=
  [⟨some "Widget [12]", some "Prod", some "Acme", some "01/03/2024"⟩,
   ⟨some "Gadget [7]", none, none, none⟩,
   ⟨some "Plain", some "Run", none, none⟩]

/-- Concrete cluster mapping with a duplicated pair, unique codes after
deduplication. -/
def cl2 : List ClusterRow :=
  [⟨some 12, some "ClusterA"⟩, ⟨some 12, some "ClusterA"⟩, ⟨some 34, some "ClusterB"⟩]

theorem C2_witness :
    ((dedupPairs cl2).map (fun c => c.pc)).Nodup ∧
    ((transform ev2 cl2).length = (testFiltered ev2).length ∧
     ∀ r ∈ transform ev2 cl2,
       (∀ c ∈ dedupPairs cl2, c.pc ≠ r.pc) → r.groups = none) :=
  ⟨by decide, C2_left_join_row_count ev2 cl2 (by decide)⟩

theorem find_pair_map (ks : List String) (f : String → Nat) (m : String) :
    ((ks.map (fun k => (k, f k))).find? (fun q => q.1 == m)) =
      (ks.find? (fun k => k == m)).map (fun k => (k, f k)) := by
  induction ks with
  | nil => rfl
  | cons k ks ih =>
    simp only [List.map_cons, List.find?]
    cases hk : (k == m) with
    | true => simp [hk]
    | false => simp [hk, ih]

theorem reindexCols_fst (cells : List (String × Nat)) :
    (reindexCols cells).map Prod.fst = monthOrder := by
  simp [reindexCols, List.map_map, Function.comp_def]

theorem countGroupMonth_eq_zero (rows : List MergedRow) (g m : String)
    (h : ∀ r ∈ rows, ¬ r.monthNameCat = some m) :
    countGroupMonth rows g m = 0 := by
  rw [countGroupMonth, List.length_eq_zero, List.filter_eq_nil_iff]
  intro r hr hcond
  rw [Bool.and_eq_true] at hcond
  exact h r hr (by simpa using hcond.2)

theorem mem_monthKeys (rows : List MergedRow) (m : String) :
    m ∈ monthKeys rows ↔ m ∈ monthOrder ∧ ∃ r ∈ rows, r.monthNameCat = some m := by
  rw [monthKeys, List.mem_filter]
  simp [List.any_eq_true]

/-- C3 (amended): for any record set, the cluster-by-month cross-tab has one
row per distinct non-null cluster label (records whose cluster is null are
excluded and get no bucket), every row's columns are the twelve month names
in calendar order, and every cell is the count of records with that cluster
and that month, zero when no record matches. -/
theorem C3_cluster_pivot (rows : List MergedRow) :
    ((pivotCluster rows).map Prod.fst).Nodup ∧
    (∀ g, g ∈ (pivotCluster rows).map Prod.fst ↔ some g ∈ rows.map (fun r => r.groups)) ∧
    (∀ p ∈ pivotCluster rows, p.2.map Prod.fst = monthOrder ∧
      ∀ q ∈ p.2, q.2 = countGroupMonth rows p.1 q.1) := by
  have hfst : (pivotCluster rows).map Prod.fst = groupKeys rows := by
    simp [pivotCluster, pivotClusterRaw, List.map_map, Function.comp_def, groupKeys]
  refine ⟨?_, ?_, ?_⟩
  · rw [hfst]
    exact nodup_dedupFirst _
  · intro g
    rw [hfst, groupKeys, mem_dedupFirst, List.mem_filterMap]
    constructor
    · rintro ⟨r, hr, hg⟩
      exact List.mem_map.mpr ⟨r, hr, hg⟩
    · intro hmem
      obtain ⟨r, hr, hg⟩ := List.mem_map.mp hmem
      exact ⟨r, hr, hg⟩
  · intro p hp
    rw [pivotCluster] at hp
    obtain ⟨p0, hp0, rfl⟩ := List.mem_map.mp hp
    rw [pivotClusterRaw] at hp0
    obtain ⟨g, hg, rfl⟩ := List.mem_map.mp hp0
    refine ⟨reindexCols_fst _, ?_⟩
    intro q hq
    rw [reindexCols] at hq
    obtain ⟨m, hm, rfl⟩ := List.mem_map.mp hq
    rw [find_pair_map]
    cases hf : (monthKeys rows).find? (fun k => k == m) with
    | some k =>
      have hk : k = m := by simpa using List.find?_some hf
      subst hk
      simp [hf]
    | none =>
      have hnm : m ∉ monthKeys rows := by
        intro hmem
        have := List.find?_eq_none.mp hf m hmem
        simp at this
      have hz : countGroupMonth rows g m = 0 := by
        apply countGroupMonth_eq_zero
        intro r hr heq
        exact hnm ((mem_monthKeys rows m).mpr ⟨hm, r, hr, heq⟩)
      simp [hf, hz]

/-- Concrete event whose material has no bracketed code: the merge leaves a
null cluster, and the record reaches the GPN subset. -/
def ev3 : List EventRow := [⟨some "Widget", some "Prod", some "Acme", some "01/03/2024"⟩]

/-- GPN subset holding one record whose cluster value is null. -/
def gpn3 : List MergedRow := dfGpn (filterRows (transform ev3 []) [fallbackOrg] monthOrder)

/-- C3 counterexample: a one-record GPN subset whose only cluster value is
null yields an empty cross-tab, so there is no row (bucket) for the
null-cluster record and the row count is below the number of distinct
cluster values including null, contradicting the claim as stated. -/
theorem C3_counterexample :
    gpn3.length = 1 ∧ gpn3.map (fun r => r.groups) = [none] ∧
    pivotCluster gpn3 = [] ∧
    ¬ (pivotCluster gpn3).length = (dedupFirst (gpn3.map (fun r => r.groups))).length :=
  ⟨by decide, by decide, by decide, by decide⟩

/-- Concrete matched event whose cluster pivot has one labelled row. -/
def ev3w : List EventRow := [⟨some "W [12]", some "p", some "Acme", some "01/03/2024"⟩]

/-- Cluster mapping for the C3 witness. -/
def cl3w : List ClusterRow := [⟨some 12, some "ClusterA"⟩]

/-- GPN subset for the C3 witness. -/
def gpn3w : List MergedRow := dfGpn (filterRows (transform ev3w cl3w) [fallbackOrg] monthOrder)

theorem C3_witness :
    ((pivotCluster gpn3w).map Prod.fst).Nodup ∧
    (pivotCluster gpn3w).map Prod.fst = ["ClusterA"] :=
  ⟨(C3_cluster_pivot gpn3w).1, by decide⟩

theorem parseDMY_month_bounds (s : String) (d : CalDate) (h : parseDMY s = some d) :
    1 ≤ d.month ∧ d.month ≤ 12 := by
  unfold parseDMY at h
  split at h
  · split at h
    · split at h
      · rename_i hv
        injection h with h1
        subst h1
        exact ⟨hv.1, hv.2.1⟩
      · exact absurd h (by simp)
    · exact absurd h (by simp)
  · exact absurd h (by simp)

theorem monthName_mem_monthOrder (m : Nat) (h1 : 1 ≤ m) (h2 : m ≤ 12) :
    monthName m ∈ monthOrder := by
  interval_cases m <;> decide

theorem toMonthCat_empty : toMonthCat "" = none := by decide

theorem toMonthCat_some (x s : String) (h : toMonthCat x = some s) :
    s ∈ monthOrder ∧ s = x := by
  rw [toMonthCat] at h
  split at h
  · rename_i hx
    injection h with h1
    subst h1
    exact ⟨hx, rfl⟩
  · exact absurd h (by simp)

theorem enrich_date (e : EventRow) (g : Option String) :
    (enrich e g).date = e.dateRaw.bind parseDMY := by
  simp [enrich]

theorem enrich_month (e : EventRow) (g : Option String) :
    (enrich e g).month = (enrich e g).date.map CalDate.month := by
  simp [enrich]

theorem enrich_monthNameCat (e : EventRow) (g : Option String) :
    (enrich e g).monthNameCat = toMonthCat (monthNameStrOf (enrich e g).month) := by
  simp [enrich]

/-- C4 (amended): for every transformed record, the month name equals the
English calendar month name of the parsed entry date's month whenever the
date parses (and that name lies in the twelve-month domain); when the date
is null, the intermediate month-name string is the empty string, but the
final categorical month-name value is null, because the empty string lies
outside the ordered categorical domain of exactly the twelve calendar
months; every non-null categorical value lies in that domain. -/
theorem C4_month_name (events : List EventRow) (clusters : List ClusterRow)
    (r : MergedRow) (hr : r ∈ transform events clusters) :
    (r.date = none → r.month = none ∧ monthNameStrOf r.month = "" ∧ r.monthNameCat = none) ∧
    (∀ d, r.date = some d → r.month = some d.month ∧
      r.monthNameCat = some (monthName d.month) ∧ monthName d.month ∈ monthOrder) ∧
    (∀ s, r.monthNameCat = some s → s ∈ monthOrder) := by
  obtain ⟨e, g, he, rfl⟩ := transform_shape events clusters r hr
  refine ⟨?_, ?_, ?_⟩
  · intro hd
    have hm : (enrich e g).month = none := by
      rw [enrich_month, hd]
      rfl
    refine ⟨hm, by rw [hm]; rfl, ?_⟩
    rw [enrich_monthNameCat, hm]
    exact toMonthCat_empty
  · intro d hd
    have hm : (enrich e g).month = some d.month := by
      rw [enrich_month, hd]
      rfl
    have hparse : ∃ sraw, e.dateRaw = some sraw ∧ parseDMY sraw = some d := by
      have := enrich_date e g
      rw [hd] at this
      exact Option.bind_eq_some.mp this.symm
    obtain ⟨sraw, _, hp⟩ := hparse
    obtain ⟨hb1, hb2⟩ := parseDMY_month_bounds sraw d hp
    have hmem := monthName_mem_monthOrder d.month hb1 hb2
    refine ⟨hm, ?_, hmem⟩
    rw [enrich_monthNameCat, hm]
    rw [show monthNameStrOf (some d.month) = monthName d.month from rfl]
    rw [toMonthCat, if_pos hmem]
  · intro s hs
    rw [enrich_monthNameCat] at hs
    exact (toMonthCat_some _ _ hs).1

/-- Concrete event whose entry date does not parse. -/
def ev4 : List EventRow := [⟨some "x", none, none, some "not a date"⟩]

/-- C4 counterexample: the claim as stated demands the month name of a
record with a null date to equal the empty string; the transformed record
of an unparseable date has a null (not empty-string) categorical month
name. -/
theorem C4_counterexample :
    ¬ ∀ r ∈ transform ev4 [], r.date = none → r.monthNameCat = some "" := by
  decide

/-- Concrete event with a parsing date for the C4 witness. -/
def ev4w : List EventRow := [⟨none, none, none, some "05/01/2024"⟩]

/-- Transformed row of the C4 witness event. -/
def row4 : MergedRow := enrich ⟨none, none, none, some "05/01/2024"⟩ none

theorem C4_witness :
    row4 ∈ transform ev4w [] ∧ row4.date = some ⟨5, 1, 2024⟩ ∧
    row4.monthNameCat = some "January" ∧
    (∀ s, row4.monthNameCat = some s → s ∈ monthOrder) :=
  ⟨by decide, by decide, by decide,
   (C4_month_name ev4w [] row4 (by decide)).2.2⟩

theorem reindexRows_fst (t : List (String × List (String × Nat))) :
    (reindexRows t).map Prod.fst = monthOrder := by
  simp [reindexRows, List.map_map, Function.comp_def]

/-- C5: every grouping or pivot over the month-name dimension lays its month
columns or index out in calendar order January through December, for any
input record set (hence regardless of row order): the two displayed pivot
tables have exactly the twelve months as index after the reindex, both GPN
pivots have exactly the twelve months as columns of every row, and the
grouped monthly counts enumerate, for each organization key, the months in
calendar order. -/
theorem C5_calendar_order (rows : List MergedRow) :
    monthOrder = ["January", "February", "March", "April", "May", "June", "July",
      "August", "September", "October", "November", "December"] ∧
    (pivotTable1 rows).map Prod.fst = monthOrder ∧
    (pivotTable2 rows).map Prod.fst = monthOrder ∧
    (∀ p ∈ pivotCluster rows, p.2.map Prod.fst = monthOrder) ∧
    (∀ p ∈ pivotOrg rows, p.2.map Prod.fst = monthOrder) ∧
    (monthlyCounts rows).map Prod.fst =
      (orgKeys rows).flatMap (fun o => monthOrder.map (fun m => (o, m))) := by
  refine ⟨rfl, reindexRows_fst _, reindexRows_fst _, ?_, ?_, ?_⟩
  · intro p hp
    rw [pivotCluster] at hp
    obtain ⟨p0, _, rfl⟩ := List.mem_map.mp hp
    exact reindexCols_fst _
  · intro p hp
    rw [pivotOrg] at hp
    obtain ⟨o, _, rfl⟩ := List.mem_map.mp hp
    exact reindexCols_fst _
  · simp [monthlyCounts, List.map_flatMap, List.map_map, Function.comp_def]

/-- Concrete transformed row set with a single February record. -/
def rows5 : List MergedRow :=
  transform [⟨some "A [3]", some "p", some "X", some "02/02/2023"⟩] []

theorem C5_witness :
    (pivotTable1 rows5).map Prod.fst = monthOrder ∧
    monthKeys rows5 = ["February"] :=
  ⟨(C5_calendar_order rows5).2.1, by decide⟩

theorem mem_monthlyCounts (rows : List MergedRow) (o m : String) (k : Nat) :
    ((o, m), k) ∈ monthlyCounts rows ↔
      (o ∈ rows.map (fun r => r.organization1) ∧ m ∈ monthOrder ∧
        k = countOrgMonth rows o m) := by
  rw [monthlyCounts, List.mem_flatMap]
  constructor
  · rintro ⟨o2, ho2, hmem⟩
    obtain ⟨m2, hm2, heq⟩ := List.mem_map.mp hmem
    injection heq with h1 h2
    injection h1 with h1a h1b
    subst h1a
    subst h1b
    subst h2
    rw [orgKeys, mem_dedupFirst] at ho2
    exact ⟨ho2, hm2, rfl⟩
  · rintro ⟨ho, hm, rfl⟩
    refine ⟨o, ?_, List.mem_map.mpr ⟨m, hm, rfl⟩⟩
    rw [orgKeys, mem_dedupFirst]
    exact ho

theorem monthlyCounts_length (rows : List MergedRow) :
    (monthlyCounts rows).length = (orgKeys rows).length * monthOrder.length := by
  rw [monthlyCounts]
  generalize orgKeys rows = ks
  induction ks with
  | nil => rfl
  | cons o ks ih =>
    rw [List.flatMap_cons, List.length_append, ih, List.length_map, List.length_cons]
    ring

/-- C6 (amended): the monthly-counts aggregate of the filtered record set
contains exactly one entry for every pair of an observed normalized
organization and each of the twelve calendar months: zero-count months of an
observed organization are present (zero-filled by the categorical grouping),
while organizations absent from the filtered set contribute no entries. -/
theorem C6_monthly_counts (rows : List MergedRow) (orgs months : List String) :
    (∀ o m k, ((o, m), k) ∈ monthlyCounts (filterRows rows orgs months) ↔
      (o ∈ (filterRows rows orgs months).map (fun r => r.organization1) ∧
        m ∈ monthOrder ∧ k = countOrgMonth (filterRows rows orgs months) o m)) ∧
    (monthlyCounts (filterRows rows orgs months)).length =
      (orgKeys (filterRows rows orgs months)).length * monthOrder.length :=
  ⟨fun o m k => mem_monthlyCounts (filterRows rows orgs months) o m k,
   monthlyCounts_length (filterRows rows orgs months)⟩

/-- Concrete event set with one January record. -/
def ev6 : List EventRow := [⟨some "W [1]", some "p", some "Acme", some "05/01/2024"⟩]

/-- Monthly counts of the filtered one-record set. -/
def mc6 : List ((String × String) × Nat) :=
  monthlyCounts (filterRows (transform ev6 []) [fallbackOrg] monthOrder)

/-- C6 counterexample: the aggregate of a one-record January set holds a
zero-count February entry, so zero-count combinations are not omitted. -/
theorem C6_counterexample :
    (("Phoenix Contact - GPN", "February"), 0) ∈ mc6 ∧
    ¬ (∀ p ∈ mc6, p.2 ≠ 0) := by
  constructor
  · decide
  · decide

theorem C6_witness :
    (("Phoenix Contact - GPN", "March"), (0 : Nat)) ∈
      monthlyCounts (filterRows (transform ev6 []) [fallbackOrg] monthOrder) :=
  ((C6_monthly_counts (transform ev6 []) [fallbackOrg] monthOrder).1 _ _ _).mpr
    ⟨by decide, by decide, by decide⟩

theorem enrich_organization (e : EventRow) (g : Option String) :
    (enrich e g).organization = e.organization := by
  simp [enrich]

theorem enrich_organization1 (e : EventRow) (g : Option String) :
    (enrich e g).organization1 = normalizeOrg e.organization := by
  simp [enrich]

theorem enrich_name (e : EventRow) (g : Option String) :
    (enrich e g).name = e.name := by
  simp [enrich]

/-- C7: for every transformed record, an organization name equal to one of
the two allow-listed exact strings is kept verbatim as the normalized
group, and any other organization name (a null one included) maps to the
single fallback constant. -/
theorem C7_org_normalization (events : List EventRow) (clusters : List ClusterRow)
    (r : MergedRow) (hr : r ∈ transform events clusters) :
    (∀ s, r.organization = some s →
      (((s = "PHOENIX CONTACT E-Mobility GmbH" ∨
         s = "Phoenix Contact GmbH & Co. KG - Werkzeugbau") → r.organization1 = s) ∧
       ((s ≠ "PHOENIX CONTACT E-Mobility GmbH" ∧
         s ≠ "Phoenix Contact GmbH & Co. KG - Werkzeugbau") →
          r.organization1 = "Phoenix Contact - GPN"))) ∧
    (r.organization = none → r.organization1 = "Phoenix Contact - GPN") := by
  obtain ⟨e, g, he, rfl⟩ := transform_shape events clusters r hr
  rw [enrich_organization, enrich_organization1]
  constructor
  · intro s hs
    rw [hs]
    constructor
    · intro hcase
      have hmem : s ∈ keepValues := by
        rcases hcase with rfl | rfl <;> simp [keepValues]
      simp [normalizeOrg, hmem]
    · intro hcase
      have hmem : s ∉ keepValues := by
        intro hm
        simp only [keepValues, List.mem_cons, List.mem_singleton] at hm
        rcases hm with rfl | (rfl | hfalse)
        · exact hcase.1 rfl
        · exact hcase.2 rfl
        · simp at hfalse
      simp [normalizeOrg, hmem, fallbackOrg]
  · intro hs
    rw [hs]
    rfl

/-- Concrete event with a non-allow-listed organization. -/
def ev7 : List EventRow := [⟨none, none, some "Acme", none⟩]

/-- Transformed row of the C7 witness event. -/
def row7 : MergedRow := enrich ⟨none, none, some "Acme", none⟩ none

theorem C7_witness :
    row7 ∈ transform ev7 [] ∧ row7.organization1 = "Phoenix Contact - GPN" :=
  ⟨by decide,
   ((C7_org_normalization ev7 [] row7 (by decide)).1 "Acme" (by decide)).2 (by decide)⟩

/-- C8: an event row whose name contains the four letters of "test" in any
letter case (made precise by lowering the name characters) is excluded from
the test-filtered set and leaves no trace in the transformed set; an event
row whose name field is null is retained. -/
theorem C8_test_exclusion (events : List EventRow) (clusters : List ClusterRow)
    (e : EventRow) (he : e ∈ events) :
    ((∃ s, e.name = some s ∧
        ∃ pre post, s.data.map lowerChar = pre ++ "test".data ++ post) →
      e ∉ testFiltered events ∧
        ∀ r ∈ transform events clusters, r.name ≠ e.name) ∧
    (e.name = none → e ∈ testFiltered events) := by
  constructor
  · rintro ⟨s, hs, hinf⟩
    have htest : nameHasTest e.name = true := by
      rw [hs]
      show hasSub "test".data (s.data.map lowerChar) = true
      rw [hasSub_iff]
      exact hinf
    constructor
    · intro hmem
      have hk := (List.mem_filter.mp hmem).2
      simp [htest] at hk
    · intro r hr hname
      obtain ⟨e2, g, he2, rfl⟩ := transform_shape events clusters r hr
      have hk : nameHasTest e2.name = false := by
        have := (List.mem_filter.mp he2).2
        simpa using this
      rw [enrich_name] at hname
      rw [hname, htest] at hk
      simp at hk
  · intro hn
    rw [testFiltered, List.mem_filter]
    refine ⟨he, ?_⟩
    show (!nameHasTest e.name) = true
    rw [hn]
    rfl

/-- Concrete events: one with "test" hidden in mixed case, one null name. -/
def ev8 : List EventRow :=
  [⟨some "m", some "MyTESTrun", none, none⟩, ⟨some "n", none, none, none⟩]

/-- The excluded mixed-case test event of the C8 witness. -/
def e8 : EventRow := ⟨some "m", some "MyTESTrun", none, none⟩

theorem C8_witness :
    e8 ∉ testFiltered ev8 ∧ (testFiltered ev8).length = 1 :=
  ⟨((C8_test_exclusion ev8 [] e8 (by decide)).1
      ⟨"MyTESTrun", rfl, "my".data, "run".data, by decide⟩).1,
   by decide⟩

/-- C9: an empty organization selection or an empty month selection gives an
empty filtered set, hence empty monthly counts, no organization columns and
no observed month rows for the first pivot table, an empty GPN subset, and
the GPN charts and second pivot table are skipped. -/
theorem C9_empty_selection (rows : List MergedRow) (orgs months : List String)
    (h : orgs = [] ∨ months = []) :
    filterRows rows orgs months = [] ∧
    monthlyCounts (filterRows rows orgs months) = [] ∧
    orgKeys (filterRows rows orgs months) = [] ∧
    pivotTable1Raw (filterRows rows orgs months) = [] ∧
    dfGpn (filterRows rows orgs months) = [] ∧
    showGpn (filterRows rows orgs months) = false := by
  have hf : filterRows rows orgs months = [] := by
    rw [filterRows, List.filter_eq_nil_iff]
    intro r hr
    rcases h with rfl | rfl
    · simp
    · cases hm : r.monthNameCat <;> simp [hm]
  rw [hf]
  exact ⟨rfl, rfl, rfl, rfl, rfl, rfl⟩

/-- Concrete transformed row set for the C9 witness. -/
def rows9 : List MergedRow :=
  transform [⟨some "M [2]", some "p", some "Org", some "10/04/2024"⟩] []

theorem C9_witness :
    filterRows rows9 [] monthOrder = [] ∧ rows9.length = 1 :=
  ⟨(C9_empty_selection rows9 [] monthOrder (Or.inl rfl)).1, by decide⟩

/-- C10: every record of the filtered set carries a non-null month name
drawn from the twelve calendar months (and lying in the month selection),
and consequently has a non-null parsed date and month number: a record whose
entry date failed to parse never passes the month filter, whatever the
selections are, the full default selection included. -/
theorem C10_filtered_month_nonnull (events : List EventRow) (clusters : List ClusterRow)
    (orgs months : List String) (r : MergedRow)
    (hr : r ∈ filterRows (transform events clusters) orgs months) :
    (∃ m, m ∈ monthOrder ∧ m ∈ months ∧ r.monthNameCat = some m) ∧
    r.date ≠ none ∧ r.month ≠ none := by
  have hmem := List.mem_filter.mp hr
  have hrt := hmem.1
  have hcond : (decide (r.organization1 ∈ orgs) &&
      (match r.monthNameCat with
       | some m => decide (m ∈ months)
       | none => false)) = true := hmem.2
  rw [Bool.and_eq_true] at hcond
  obtain ⟨e, g, he, rfl⟩ := transform_shape events clusters r hrt
  cases hmc : (enrich e g).monthNameCat with
  | none =>
    have := hcond.2
    rw [hmc] at this
    simp at this
  | some m =>
    have hm2 : m ∈ months := by
      have := hcond.2
      rw [hmc] at this
      simpa using this
    have hmo : m ∈ monthOrder := by
      have h2 := hmc
      rw [enrich_monthNameCat] at h2
      exact (toMonthCat_some _ _ h2).1
    refine ⟨⟨m, hmo, hm2, rfl⟩, ?_, ?_⟩
    · intro hd
      have hmn : (enrich e g).month = none := by
        rw [enrich_month, hd]
        rfl
      have hnone : (enrich e g).monthNameCat = none := by
        rw [enrich_monthNameCat, hmn]
        exact toMonthCat_empty
      rw [hmc] at hnone
      exact Option.noConfusion hnone
    · intro hmn
      have hnone : (enrich e g).monthNameCat = none := by
        rw [enrich_monthNameCat, hmn]
        exact toMonthCat_empty
      rw [hmc] at hnone
      exact Option.noConfusion hnone

/-- Concrete event with a June date for the C10 witness. -/
def ev10 : List EventRow := [⟨some "Q [5]", some "p", some "Someone", some "20/06/2024"⟩]

/-- Transformed row of the C10 witness event. -/
def row10 : MergedRow := enrich ⟨some "Q [5]", some "p", some "Someone", some "20/06/2024"⟩ none

theorem C10_witness :
    (∃ m, m ∈ monthOrder ∧ m ∈ monthOrder ∧ row10.monthNameCat = some m) ∧
    row10.date ≠ none ∧ row10.month ≠ none :=
  C10_filtered_month_nonnull ev10 [] [fallbackOrg] monthOrder row10 (by decide)
